import Mathlib

/-!
gogoogooo: slice variance and per-type shared pools.

Verification development for two Go programs of the repository:

* `variance/variance_test.go`: `Variant[T1, T2]`, the unchecked cast of a `[]T1` to a `[]T2`
  between two interface types one of which is assignable to the other;
* `sharedpool/pool.go`: `SharedAlloc[T]`, which keeps one `*Pool[T]` per type `T` in the
  package-level `poolMap`, keyed by `tag[T]{}`.

Go values are embedded shallowly.  A panic is an `Except.error` carrying the panic message.
State (the heap holding slice elements, `poolMap`, the allocated pools, standard output) is
passed explicitly.
-/

deriving instance DecidableEq for Except

namespace variance

/-- The kinds of `reflect.Kind`. -/
inductive Kind where
  | Invalid | Bool | Int | Int8 | Int16 | Int32 | Int64
  | Uint | Uint8 | Uint16 | Uint32 | Uint64 | Uintptr
  | Float32 | Float64 | Complex64 | Complex128
  | Array | Chan | Func | Interface | Map | Pointer | Slice | String | Struct | UnsafePointer
  deriving DecidableEq, Repr

/-- A method of a method set: its name and its signature. -/
structure Method where
  name : String
  typ : String
  deriving DecidableEq, Repr

/-- A Go type as `reflect` describes it: the text of `String()`, its `Kind()` and its method
set, in the order of the method names, which is the order `reflect` and the runtime keep it
in.  A type is identified with its descriptor. -/
structure RType where
  str : String
  kind : Kind
  methods : List Method
  deriving DecidableEq, Repr

/-- The function `implements(T, V)` of package `reflect`: `T` is an interface type and every
method of `T` is in the method set of `V`. -/
def implements (T V : RType) : Bool :=
  T.kind == Kind.Interface && T.methods.all (fun m => V.methods.contains m)

/-- The function `directlyAssignable(T, V)` of package `reflect`, for the types `Variant`
passes to it.  `Variant` calls `AssignableTo` after both `Kind` checks, so both types are
interface types; for those the rule for unnamed types with identical underlying types only
accepts two interfaces without methods, which `implements` accepts as well, and what is left
is identity of the two types. -/
def directlyAssignable (T V : RType) : Bool :=
  T == V

/-- The method `t.AssignableTo(u)` of `reflect.Type`: a value of type `t` is assignable to
type `u`. -/
def AssignableTo (t u : RType) : Bool :=
  directlyAssignable u t || implements u t

/-- A slice header: pointer to the backing array, length and capacity.  The element type is a
type index only, as in Go, where `[]T1` and `[]T2` have the same layout. -/
structure Slice (T : RType) where
  data : Nat
  len : Nat
  cap : Nat
  deriving DecidableEq, Repr

/-- A non-nil interface value as it lies in memory: a method table, the dynamic type and the
data word.  The method table is built when the value is converted to an interface type (`tab`
is that interface type) and has one slot per method of that interface type, in the order of
the method names; slot `k` holds the method of the dynamic type that implements method `k` of
`tab`.  A cast of the slice that holds the value does not touch it. -/
structure Boxed where
  tab : RType
  typ : RType
  data : Nat
  deriving DecidableEq, Repr

/-- An interface value: nil, or a dynamic type with its data. -/
abbrev Iface := Option Boxed

/-- Memory holding the elements of backing arrays, one interface value per address. -/
abbrev Heap := Nat → Iface

/-- The function `Variant[T1, T2 any](a []T1) []T2`. -/
def Variant (T1 T2 : RType) (a : Slice T1) : Except String (Slice T2) :=
  let t1 := T1
  if t1.kind ≠ Kind.Interface then
    Except.error (t1.str ++ " is not an interface")
  else
    let t2 := T2
    if t2.kind ≠ Kind.Interface then
      Except.error (t2.str ++ " is not an interface")
    else if (!AssignableTo t1 t2 && !AssignableTo t2 t1) then
      Except.error ("incompatible types: " ++ t1.str ++ " and " ++ t2.str)
    else
      Except.ok { data := a.data, len := a.len, cap := a.cap }

/-- The index expression `s[i]` read from memory `h`; out of range is a panic. -/
def index {T : RType} (h : Heap) (s : Slice T) (i : Nat) : Except String Iface :=
  if i < s.len then Except.ok (h (s.data + i)) else Except.error "index out of range"

/-- The assignment `s[i] = v` on memory `h`; out of range is a panic. -/
def setIndex {T : RType} (h : Heap) (s : Slice T) (i : Nat) (v : Iface) : Except String Heap :=
  if i < s.len then Except.ok (Function.update h (s.data + i) v)
  else Except.error "index out of range"

/-- The dynamic type of the interface value `v` has every method of `T`; nil implements
nothing. -/
def implementsVal (v : Iface) (T : RType) : Bool :=
  match v with
  | none => false
  | some b => T.methods.all (fun m => b.typ.methods.contains m)

/-- How a method call on an interface value can fail: a run-time panic for the nil
dereference of a call on a nil interface; a read beyond the end of the method table, which is
an invalid memory access and no panic; and a method the static type has not, which the
compiler refuses. -/
inductive Failure where
  | nilPointer
  | fault
  | noMethod
  deriving DecidableEq, Repr

/-- The slot a call of method `m` through the interface type `S` reads: the position of `m`
among the methods of `S`. -/
def slotOf (S : RType) (m : Method) : Option Nat :=
  if S.methods.indexOf m < S.methods.length then some (S.methods.indexOf m) else none

/-- The method call `v.m()` where `v` is read through the static interface type `S`: the call
reads the slot of `m` in `S` from the method table stored in `v` and enters the method found
there, which is the result.  The table is the one of `v.tab`, whatever `S` is; a slot beyond
its end is a fault.  What the entered method does is not part of the model. -/
def invoke (S : RType) (v : Iface) (m : Method) : Except Failure Method :=
  match slotOf S m with
  | none => Except.error Failure.noMethod
  | some k =>
    match v with
    | none => Except.error Failure.nilPointer
    | some b =>
      match b.tab.methods[k]? with
      | some entered => Except.ok entered
      | none => Except.error Failure.fault

/-- The loop `for _, x := range s { x.m() }` over a `[]T`: the methods entered, one per
element, up to the first call that fails. -/
def rangeInvoke {T : RType} (h : Heap) (s : Slice T) (m : Method) :
    Except Failure (List Method) :=
  (List.range s.len).mapM (fun i => invoke T (h (s.data + i)) m)

/-- Method `Animal()`. -/
def mAnimal : Method := { name := "Animal", typ := "func()" }

/-- Method `Cat()`. -/
def mCat : Method := { name := "Cat", typ := "func()" }

/-- Method `Dog()`. -/
def mDog : Method := { name := "Dog", typ := "func()" }

/-- Interface `Animal`. -/
def Animal : RType :=
  { str := "variance_test.Animal", kind := Kind.Interface, methods := [mAnimal] }

/-- Interface `Cat`: `Cat()` and the embedded `Animal`. -/
def Cat : RType :=
  { str := "variance_test.Cat", kind := Kind.Interface, methods := [mAnimal, mCat] }

/-- Interface `Dog`: `Dog()` and the embedded `Animal`. -/
def Dog : RType :=
  { str := "variance_test.Dog", kind := Kind.Interface, methods := [mAnimal, mDog] }

/-- Struct `CatImpl` with methods `Animal()` and `Cat()`. -/
def CatImpl : RType :=
  { str := "variance_test.CatImpl", kind := Kind.Struct, methods := [mAnimal, mCat] }

/-- Struct `DogImpl` with methods `Animal()` and `Dog()`. -/
def DogImpl : RType :=
  { str := "variance_test.DogImpl", kind := Kind.Struct, methods := [mAnimal, mDog] }

/-- Memory of `TestCovariant` at the cast: the backing array of `cats` at address 0, with a
`CatImpl{}` in its first cell and nothing in its second. -/
def covariantHeap : Heap :=
  fun p => if p = 0 then some { tab := Cat, typ := CatImpl, data := 0 } else none

/-- Memory of `TestContravariant` at the cast: the backing array of `animals` at address 0,
with a `DogImpl{}` in its first cell and nothing in its second. -/
def contravariantHeap : Heap :=
  fun p => if p = 0 then some { tab := Animal, typ := DogImpl, data := 0 } else none

/-- Memory holding the backing array of `[]Dog{DogImpl{}}` at address 0: the element was
stored as a `Dog`. -/
def dogHeap : Heap :=
  fun p => if p = 0 then some { tab := Dog, typ := DogImpl, data := 0 } else none

/-- Method `Aaa(f func())`. -/
def mAaa : Method := { name := "Aaa", typ := "func(func())" }

/-- The interface type `type Runner2 interface { Aaa(f func()); Animal }`: it embeds `Animal`
and has a method whose name comes before `Animal`. -/
def Runner2 : RType :=
  { str := "variance_test.Runner2", kind := Kind.Interface, methods := [mAaa, mAnimal] }

/-- A struct type `RunnerImpl` with methods `Aaa(f func())` and `Animal()`. -/
def RunnerImpl : RType :=
  { str := "variance_test.RunnerImpl", kind := Kind.Struct, methods := [mAaa, mAnimal] }

/-- Memory holding the backing array of `[]Runner2{RunnerImpl{}}` at address 0. -/
def runnerHeap : Heap :=
  fun p => if p = 0 then some { tab := Runner2, typ := RunnerImpl, data := 0 } else none

/-- The text `sub` occurs in the text `s`. -/
def containsStr (s sub : String) : Bool :=
  s.data.tails.any (fun t => sub.data.isPrefixOf t)

end variance

namespace sharedpool

/-- Go types that can instantiate the type parameter `T`, together with the instantiations
`tag[T]` and `Pool[T]` of the two generic types of the package.  Two types are identical
exactly when they are built the same way, so `tag[int]` and `tag[string]` are different
types. -/
inductive GoType where
  | int
  | string
  | func
  | named (name : String)
  | pointer (elem : GoType)
  | slice (elem : GoType)
  | tag (T : GoType)
  | Pool (T : GoType)
  deriving DecidableEq, Repr

/-- Values an interface can hold: numbers, texts, the only value `struct{}{}` of a zero-size
struct type, and pointers. -/
inductive Value where
  | int (n : Int)
  | string (s : String)
  | zero
  | pointer (addr : Nat)
  deriving DecidableEq, Repr

/-- A non-nil value of type `any`: dynamic type and value.  Two are equal when both the dynamic
types and the values are equal. -/
structure Dyn where
  typ : GoType
  val : Value
  deriving DecidableEq, Repr

/-- A value of type `any`; `none` is the nil interface. -/
abbrev Any := Option Dyn

/-- A `map[any]any`: its entries, at most one per key. -/
abbrev GoMap := List (Any × Any)

/-- The index expression `v, ok := m[k]`. -/
def mapIndex : GoMap → Any → Any × Bool
  | [], _ => (none, false)
  | (k', v') :: m, k => if k' = k then (v', true) else mapIndex m k

/-- The assignment `m[k] = v`: replaces the entry of `k`, or adds one. -/
def mapAssign : GoMap → Any → Any → GoMap
  | [], k, v => [(k, v)]
  | (k', v') :: m, k, v => if k' = k then (k', v) :: m else (k', v') :: mapAssign m k v

/-- A slice header of a `[]T`. -/
structure Slice (T : GoType) where
  data : Nat
  len : Nat
  cap : Nat
  deriving DecidableEq, Repr

/-- A pointer `*Pool[T]`: the address of the pool. -/
structure PoolPtr (T : GoType) where
  addr : Nat
  deriving DecidableEq, Repr

/-- The program state: the package variable `poolMap`, the objects allocated by `new` (the
object at address `i` is `heap[i]`, of the type recorded there; a `Pool[T]` is not zero-size,
so every allocation has an address of its own), and what `fmt.Printf` has written: for each
line `Using pool %T %p` the type and the address of the pool. -/
structure World where
  poolMap : GoMap
  heap : List GoType
  stdout : List (GoType × Nat)
  deriving DecidableEq, Repr

/-- The state at program start: `var poolMap = make(map[any]any)`. -/
def World.init : World :=
  { poolMap := [], heap := [], stdout := [] }

/-- The key `tag[T]{}` as a value of type `any`. -/
def tag (T : GoType) : Any :=
  some { typ := GoType.tag T, val := Value.zero }

/-- The expression `make([]T, 0)`: length and capacity 0, no backing storage needed. -/
def make0 (T : GoType) : Slice T :=
  { data := 0, len := 0, cap := 0 }

/-- The method `func (pool *Pool[T]) Alloc() []T`. -/
def PoolPtr.Alloc {T : GoType} (_pool : PoolPtr T) : Slice T :=
  make0 T

/-- The expression `new(Pool[T])`, converted to `any`: allocates at the next address. -/
def newPool (T : GoType) (w : World) : Any × World :=
  (some { typ := GoType.pointer (GoType.Pool T), val := Value.pointer w.heap.length },
   { w with heap := w.heap ++ [GoType.Pool T] })

/-- The type assertion `x.(*Pool[T])`: panics unless the dynamic type of `x` is `*Pool[T]`. -/
def assertPool (T : GoType) (x : Any) : Except String (PoolPtr T) :=
  match x with
  | some { typ := GoType.pointer (GoType.Pool U), val := Value.pointer a } =>
    if U = T then Except.ok { addr := a }
    else Except.error "interface conversion: interface is a pool of another type"
  | _ => Except.error "interface conversion: interface is not a pool pointer"

/-- The statement `fmt.Printf("Using pool %T %[1]p\n", pool)`. -/
def printPool {T : GoType} (pool : PoolPtr T) (w : World) : World :=
  { w with stdout := w.stdout ++ [(GoType.pointer (GoType.Pool T), pool.addr)] }

/-- The if statement of `SharedAlloc[T]` that sets the local `pool`; the state is kept when
a type assertion panics. -/
def lookupOrCreate (T : GoType) (w : World) : Except String (PoolPtr T) × World :=
  let (anyPool, ok) := mapIndex w.poolMap (tag T)
  if !ok then
    let (anyPool, w1) := newPool T w
    let w2 := { w1 with poolMap := mapAssign w1.poolMap (tag T) anyPool }
    (assertPool T anyPool, w2)
  else
    (assertPool T anyPool, w)

/-- The function `SharedAlloc[T any]() []T`. -/
def SharedAlloc (T : GoType) (w : World) : Except String (Slice T) × World :=
  match lookupOrCreate T w with
  | (Except.error e, w1) => (Except.error e, w1)
  | (Except.ok pool, w1) => (Except.ok pool.Alloc, printPool pool w1)

/-- A sequence of calls `SharedAlloc[T]()`, one per type of the list; a panic ends it. -/
def runCalls : List GoType → World → Except String Unit × World
  | [], w => (Except.ok (), w)
  | T :: rest, w =>
    match SharedAlloc T w with
    | (Except.error e, w1) => (Except.error e, w1)
    | (Except.ok _, w1) => runCalls rest w1

/-- The type arguments of the calls of `main`, in order. -/
def mainCalls : List GoType :=
  [GoType.int, GoType.string, GoType.int, GoType.string,
   GoType.pointer (GoType.named "http.Request"), GoType.pointer (GoType.named "http.Request"),
   GoType.func, GoType.func]

/-- The function `main`. -/
def main : Except String Unit × World :=
  runCalls mainCalls World.init

/-- States reachable from program start by calls of `SharedAlloc` that return. -/
inductive Reachable : World → Prop where
  | init : Reachable World.init
  | call (T : GoType) (w w1 : World) (s : Slice T) :
      Reachable w → SharedAlloc T w = (Except.ok s, w1) → Reachable w1

/-- The address of the pool registered for `T` in `poolMap`, if there is one. -/
def poolOf (w : World) (T : GoType) : Option Nat :=
  match mapIndex w.poolMap (tag T) with
  | (some { typ := _, val := Value.pointer a }, true) => some a
  | _ => none

/-- The value `new(Pool[T])` has as an `any` when the pool is at address `a`. -/
def poolAny (T : GoType) (a : Nat) : Any :=
  some { typ := GoType.pointer (GoType.Pool T), val := Value.pointer a }

/-- The invariant of `poolMap` and the allocated pools: what is stored under `tag[T]{}` is a
`*Pool[T]` pointing to an allocated `Pool[T]`, and every allocated object is the `Pool[T]`
stored under the tag of its own `T`. -/
def Inv (w : World) : Prop :=
  (∀ T v, mapIndex w.poolMap (tag T) = (v, true) →
    ∃ a, v = poolAny T a ∧ w.heap[a]? = some (GoType.Pool T)) ∧
  (∀ a X, w.heap[a]? = some X →
    ∃ T, X = GoType.Pool T ∧ mapIndex w.poolMap (tag T) = (poolAny T a, true))

/-- One activation of `SharedAlloc[T]`, statement by statement: the line of `pool.go` it is
about to execute, with the locals that are set at that line (`anyPool` after line 31,
`pool` after the type assertion), or how it ended. -/
inductive Call (T : GoType) where
  | L31
  | L32
  | L33 (anyPool : Any)
  | L34 (anyPool : Any)
  | L36 (anyPool : Any)
  | L39 (pool : PoolPtr T)
  | L41 (pool : PoolPtr T)
  | returned (s : Slice T)
  | panicked (msg : String)
  deriving DecidableEq, Repr

/-- One statement of an activation of `SharedAlloc[T]` on the shared state.  Line 31 is the
map lookup, 32 the `new`, 33 the map assignment, 34 and 36 the type assertions, 39 the
`Printf`, 41 the `return pool.Alloc()`. -/
def Call.step {T : GoType} (c : Call T) (w : World) : Call T × World :=
  match c with
  | Call.L31 =>
    let (anyPool, ok) := mapIndex w.poolMap (tag T)
    if !ok then (Call.L32, w) else (Call.L36 anyPool, w)
  | Call.L32 =>
    let (anyPool, w1) := newPool T w
    (Call.L33 anyPool, w1)
  | Call.L33 anyPool =>
    (Call.L34 anyPool, { w with poolMap := mapAssign w.poolMap (tag T) anyPool })
  | Call.L34 anyPool =>
    match assertPool T anyPool with
    | Except.ok pool => (Call.L39 pool, w)
    | Except.error e => (Call.panicked e, w)
  | Call.L36 anyPool =>
    match assertPool T anyPool with
    | Except.ok pool => (Call.L39 pool, w)
    | Except.error e => (Call.panicked e, w)
  | Call.L39 pool => (Call.L41 pool, printPool pool w)
  | Call.L41 pool => (Call.returned pool.Alloc, w)
  | Call.returned s => (Call.returned s, w)
  | Call.panicked e => (Call.panicked e, w)

/-- The activation `c` runs `n` statements without another caller in between. -/
def Call.run {T : GoType} : Nat → Call T → World → Call T × World
  | 0, c, w => (c, w)
  | n + 1, c, w => Call.run n (c.step w).1 (c.step w).2

/-- Caller number `i` of the callers `cs` executes its next statement. -/
def stepAt {T : GoType} (i : Nat) (cs : List (Call T)) (w : World) : List (Call T) × World :=
  match cs[i]? with
  | none => (cs, w)
  | some c => (cs.set i (c.step w).1, (c.step w).2)

/-- The callers `cs` execute statements in the order the schedule gives: each entry names the
caller that executes its next statement. -/
def runSchedule {T : GoType} : List Nat → List (Call T) → World → List (Call T) × World
  | [], cs, w => (cs, w)
  | i :: sched, cs, w => runSchedule sched (stepAt i cs w).1 (stepAt i cs w).2

/-- The schedule in which callers `k`, `k + 1`, ..., `k + n - 1` run one after the other,
each to its end (six statements at most). -/
def serialFrom : Nat → Nat → List Nat
  | _, 0 => []
  | k, n + 1 => List.replicate 6 k ++ serialFrom (k + 1) n

/-- A schedule of two callers in which both execute the lookup of line 31 before either
executes the assignment of line 33. -/
def racySchedule : List Nat :=
  [0, 1, 0, 0, 0, 0, 0, 1, 1, 1, 1, 1]

end sharedpool

/-! ## Variance: theorems -/

namespace variance

theorem Variant_ok_of (T1 T2 : RType) (a : Slice T1)
    (h1 : T1.kind = Kind.Interface) (h2 : T2.kind = Kind.Interface)
    (h3 : AssignableTo T1 T2 = true ∨ AssignableTo T2 T1 = true) :
    Variant T1 T2 a = Except.ok { data := a.data, len := a.len, cap := a.cap } := by
  unfold Variant
  rcases h3 with h3 | h3 <;> simp [h1, h2, h3]

theorem Variant_ok_inv (T1 T2 : RType) (a : Slice T1) (r : Slice T2)
    (h : Variant T1 T2 a = Except.ok r) :
    r = { data := a.data, len := a.len, cap := a.cap } ∧
    T1.kind = Kind.Interface ∧ T2.kind = Kind.Interface ∧
    (AssignableTo T1 T2 = true ∨ AssignableTo T2 T1 = true) := by
  unfold Variant at h
  by_cases h1 : T1.kind = Kind.Interface
  · by_cases h2 : T2.kind = Kind.Interface
    · by_cases h3 : AssignableTo T1 T2 = true
      · simp [h1, h2, h3] at h
        exact ⟨h.symm, h1, h2, Or.inl h3⟩
      · by_cases h4 : AssignableTo T2 T1 = true
        · simp [h1, h2, h4] at h
          exact ⟨h.symm, h1, h2, Or.inr h4⟩
        · simp [h1, h2, h3, h4] at h
    · simp [h1, h2] at h
  · simp [h1] at h

theorem Variant_error_inv (T1 T2 : RType) (a : Slice T1) (e : String)
    (h : Variant T1 T2 a = Except.error e) :
    (T1.kind ≠ Kind.Interface ∧ e = T1.str ++ " is not an interface") ∨
    (T1.kind = Kind.Interface ∧ T2.kind ≠ Kind.Interface ∧
      e = T2.str ++ " is not an interface") ∨
    (T1.kind = Kind.Interface ∧ T2.kind = Kind.Interface ∧
      AssignableTo T1 T2 = false ∧ AssignableTo T2 T1 = false ∧
      e = "incompatible types: " ++ T1.str ++ " and " ++ T2.str) := by
  unfold Variant at h
  by_cases h1 : T1.kind = Kind.Interface
  · by_cases h2 : T2.kind = Kind.Interface
    · by_cases h3 : AssignableTo T1 T2 = true
      · simp [h1, h2, h3] at h
      · by_cases h4 : AssignableTo T2 T1 = true
        · simp [h1, h2, h4] at h
        · simp [h1, h2, h3, h4] at h
          right; right
          simp at h3 h4
          exact ⟨h1, h2, h3, h4, h.symm⟩
    · simp [h1, h2] at h
      right; left
      exact ⟨h1, h2, h.symm⟩
  · simp [h1] at h
    left
    exact ⟨h1, h.symm⟩

/-- C1: `Variant[T1, T2](a)` panics if and only if `T1` is not an interface type, or `T2` is
not an interface type, or neither of the two is assignable to the other; the outcome is the
same for any two input slices, whatever their length and whatever memory holds. -/
theorem Variant_panics_iff (T1 T2 : RType) (a : Slice T1) :
    ((∃ e, Variant T1 T2 a = Except.error e) ↔
      (T1.kind ≠ Kind.Interface ∨ T2.kind ≠ Kind.Interface ∨
        (AssignableTo T1 T2 = false ∧ AssignableTo T2 T1 = false))) ∧
    (∀ b : Slice T1, ∀ e, Variant T1 T2 a = Except.error e ↔ Variant T1 T2 b = Except.error e) ∧
    (∀ b : Slice T1, (∃ r, Variant T1 T2 a = Except.ok r) ↔ (∃ r, Variant T1 T2 b = Except.ok r)) := by
  refine ⟨⟨?_, ?_⟩, ?_, ?_⟩
  · rintro ⟨e, he⟩
    rcases Variant_error_inv T1 T2 a e he with h | h | h
    · exact Or.inl h.1
    · exact Or.inr (Or.inl h.2.1)
    · exact Or.inr (Or.inr ⟨h.2.2.1, h.2.2.2.1⟩)
  · intro h
    unfold Variant
    by_cases h1 : T1.kind = Kind.Interface
    · by_cases h2 : T2.kind = Kind.Interface
      · rcases h with h | h | h
        · exact absurd h1 h
        · exact absurd h2 h
        · exact ⟨"incompatible types: " ++ T1.str ++ " and " ++ T2.str,
            by simp [h1, h2, h.1, h.2]⟩
      · exact ⟨T2.str ++ " is not an interface", by simp [h1, h2]⟩
    · exact ⟨T1.str ++ " is not an interface", by simp [h1]⟩
  · intro b e
    unfold Variant
    by_cases h1 : T1.kind = Kind.Interface
    · by_cases h2 : T2.kind = Kind.Interface
      · by_cases h3 : (!AssignableTo T1 T2 && !AssignableTo T2 T1) = true
        · simp [h1, h2, h3]
        · simp [h1, h2, h3]
      · simp [h1, h2]
    · simp [h1]
  · intro b
    unfold Variant
    by_cases h1 : T1.kind = Kind.Interface
    · by_cases h2 : T2.kind = Kind.Interface
      · by_cases h3 : (!AssignableTo T1 T2 && !AssignableTo T2 T1) = true
        · simp [h1, h2, h3]
        · simp [h1, h2, h3]
      · simp [h1, h2]
    · simp [h1]

/-- C2: when `Variant[T1, T2](a)` returns, the result has the pointer, the length and the
capacity of `a`; reading index `i` through the result gives what reading it through `a`
gives; a write through either slice succeeds exactly when it does through the other, gives
the same memory, and is read back through the other slice. -/
theorem Variant_aliases (T1 T2 : RType) (a : Slice T1) (r : Slice T2)
    (h : Variant T1 T2 a = Except.ok r) :
    r.data = a.data ∧ r.len = a.len ∧ r.cap = a.cap ∧
    (∀ (m : Heap) (i : Nat), index m r i = index m a i) ∧
    (∀ (m : Heap) (i : Nat), i < a.len → index m r i = Except.ok (m (a.data + i))) ∧
    (∀ (m : Heap) (i : Nat) (v : Iface), setIndex m r i v = setIndex m a i v) ∧
    (∀ (m : Heap) (i : Nat) (v : Iface), i < a.len →
      ∃ m1, setIndex m r i v = Except.ok m1 ∧ index m1 a i = Except.ok v) ∧
    (∀ (m : Heap) (i : Nat) (v : Iface), i < a.len →
      ∃ m1, setIndex m a i v = Except.ok m1 ∧ index m1 r i = Except.ok v) := by
  obtain ⟨hr, -, -, -⟩ := Variant_ok_inv T1 T2 a r h
  subst hr
  refine ⟨rfl, rfl, rfl, ?_, ?_, ?_, ?_, ?_⟩
  · intro m i; rfl
  · intro m i hi; simp [index, hi]
  · intro m i v; rfl
  · intro m i v hi
    exact ⟨Function.update m (a.data + i) v, by simp [setIndex, hi], by simp [index, hi]⟩
  · intro m i v hi
    exact ⟨Function.update m (a.data + i) v, by simp [setIndex, hi], by simp [index, hi]⟩

/-- Witness of C2: the cast of `TestCovariant`, a `[]Cat` of length 1 and capacity 2. -/
theorem Variant_aliases_witness :
    Variant Cat Animal { data := 0, len := 1, cap := 2 }
      = Except.ok { data := 0, len := 1, cap := 2 } ∧
    ((⟨0, 1, 2⟩ : Slice Animal).data = (⟨0, 1, 2⟩ : Slice Cat).data ∧
     (⟨0, 1, 2⟩ : Slice Animal).len = (⟨0, 1, 2⟩ : Slice Cat).len ∧
     (⟨0, 1, 2⟩ : Slice Animal).cap = (⟨0, 1, 2⟩ : Slice Cat).cap ∧
     (∀ (m : Heap) (i : Nat),
        index m (⟨0, 1, 2⟩ : Slice Animal) i = index m (⟨0, 1, 2⟩ : Slice Cat) i) ∧
     (∀ (m : Heap) (i : Nat), i < (⟨0, 1, 2⟩ : Slice Cat).len →
        index m (⟨0, 1, 2⟩ : Slice Animal) i
          = Except.ok (m ((⟨0, 1, 2⟩ : Slice Cat).data + i))) ∧
     (∀ (m : Heap) (i : Nat) (v : Iface),
        setIndex m (⟨0, 1, 2⟩ : Slice Animal) i v = setIndex m (⟨0, 1, 2⟩ : Slice Cat) i v) ∧
     (∀ (m : Heap) (i : Nat) (v : Iface), i < (⟨0, 1, 2⟩ : Slice Cat).len →
        ∃ m1, setIndex m (⟨0, 1, 2⟩ : Slice Animal) i v = Except.ok m1 ∧
          index m1 (⟨0, 1, 2⟩ : Slice Cat) i = Except.ok v) ∧
     (∀ (m : Heap) (i : Nat) (v : Iface), i < (⟨0, 1, 2⟩ : Slice Cat).len →
        ∃ m1, setIndex m (⟨0, 1, 2⟩ : Slice Cat) i v = Except.ok m1 ∧
          index m1 (⟨0, 1, 2⟩ : Slice Animal) i = Except.ok v)) :=
  ⟨by decide, Variant_aliases Cat Animal ⟨0, 1, 2⟩ ⟨0, 1, 2⟩ (by decide)⟩

theorem isPrefixOf_append_self (l q : List Char) : l.isPrefixOf (l ++ q) = true := by
  induction l with
  | nil => simp [List.isPrefixOf]
  | cons c l ih => simp [List.isPrefixOf, ih]

theorem any_tails_append (f : List Char → Bool) (p l : List Char) (h : f l = true) :
    (p ++ l).tails.any f = true := by
  induction p with
  | nil => cases l <;> simp [List.tails, h]
  | cons c p ih =>
    have : (c :: (p ++ l)).tails.any f = true := by
      rw [List.tails, List.any_cons, ih, Bool.or_true]
    simpa using this

theorem containsStr_mid (p sub q : String) : containsStr (p ++ sub ++ q) sub = true := by
  unfold containsStr
  rw [String.data_append, String.data_append, List.append_assoc]
  exact any_tails_append _ p.data (sub.data ++ q.data) (isPrefixOf_append_self _ _)

theorem containsStr_left (sub q : String) : containsStr (sub ++ q) sub = true := by
  have h := containsStr_mid "" sub q
  simpa using h

theorem containsStr_right (p sub : String) : containsStr (p ++ sub) sub = true := by
  have h := containsStr_mid p sub ""
  simpa using h

/-- C6, as the code has it: the panic message of `Variant[T1, T2]` is
`<T1> is not an interface` when `T1` is not an interface type, `<T2> is not an interface` when
`T1` is one and `T2` is not, and `incompatible types: <T1> and <T2>` when both are and neither
is assignable to the other; so it contains the name of the type that is not an interface in
the first two cases and both names in the third. -/
theorem Variant_message (T1 T2 : RType) (a : Slice T1) (e : String)
    (h : Variant T1 T2 a = Except.error e) :
    (T1.kind ≠ Kind.Interface ∧ e = T1.str ++ " is not an interface" ∧
      containsStr e T1.str = true ∧ containsStr e " is not an interface" = true) ∨
    (T1.kind = Kind.Interface ∧ T2.kind ≠ Kind.Interface ∧
      e = T2.str ++ " is not an interface" ∧
      containsStr e T2.str = true ∧ containsStr e " is not an interface" = true) ∨
    (T1.kind = Kind.Interface ∧ T2.kind = Kind.Interface ∧
      AssignableTo T1 T2 = false ∧ AssignableTo T2 T1 = false ∧
      e = "incompatible types: " ++ T1.str ++ " and " ++ T2.str ∧
      containsStr e T1.str = true ∧ containsStr e T2.str = true ∧
      containsStr e "incompatible types: " = true) := by
  rcases Variant_error_inv T1 T2 a e h with ⟨h1, he⟩ | ⟨h1, h2, he⟩ | ⟨h1, h2, h3, h4, he⟩
  · left
    refine ⟨h1, he, ?_, ?_⟩
    · rw [he]; exact containsStr_left _ _
    · rw [he]; exact containsStr_right _ _
  · right; left
    refine ⟨h1, h2, he, ?_, ?_⟩
    · rw [he]; exact containsStr_left _ _
    · rw [he]; exact containsStr_right _ _
  · right; right
    refine ⟨h1, h2, h3, h4, he, ?_, ?_, ?_⟩
    · rw [he, String.append_assoc]
      exact containsStr_mid "incompatible types: " T1.str (" and " ++ T2.str)
    · rw [he]
      exact containsStr_right _ _
    · rw [he, String.append_assoc, String.append_assoc]
      exact containsStr_left _ _

/-- Witness of C6 as amended: `Variant[Cat, Dog]`, two interface types neither of which is
assignable to the other. -/
theorem Variant_message_witness :
    Variant Cat Dog { data := 0, len := 0, cap := 0 }
      = Except.error "incompatible types: variance_test.Cat and variance_test.Dog" ∧
    ((Cat.kind ≠ Kind.Interface ∧
      "incompatible types: variance_test.Cat and variance_test.Dog"
        = Cat.str ++ " is not an interface" ∧
      containsStr "incompatible types: variance_test.Cat and variance_test.Dog" Cat.str = true ∧
      containsStr "incompatible types: variance_test.Cat and variance_test.Dog"
        " is not an interface" = true) ∨
    (Cat.kind = Kind.Interface ∧ Dog.kind ≠ Kind.Interface ∧
      "incompatible types: variance_test.Cat and variance_test.Dog"
        = Dog.str ++ " is not an interface" ∧
      containsStr "incompatible types: variance_test.Cat and variance_test.Dog" Dog.str = true ∧
      containsStr "incompatible types: variance_test.Cat and variance_test.Dog"
        " is not an interface" = true) ∨
    (Cat.kind = Kind.Interface ∧ Dog.kind = Kind.Interface ∧
      AssignableTo Cat Dog = false ∧ AssignableTo Dog Cat = false ∧
      "incompatible types: variance_test.Cat and variance_test.Dog"
        = "incompatible types: " ++ Cat.str ++ " and " ++ Dog.str ∧
      containsStr "incompatible types: variance_test.Cat and variance_test.Dog" Cat.str = true ∧
      containsStr "incompatible types: variance_test.Cat and variance_test.Dog" Dog.str = true ∧
      containsStr "incompatible types: variance_test.Cat and variance_test.Dog"
        "incompatible types: " = true)) :=
  ⟨by decide,
   Variant_message Cat Dog { data := 0, len := 0, cap := 0 }
     "incompatible types: variance_test.Cat and variance_test.Dog" (by decide)⟩

/-- Counterexample to C6 as stated: `Variant[CatImpl, Animal]` panics with
`variance_test.CatImpl is not an interface`, which does not contain the name of `Animal`, and
`Variant[Animal, DogImpl]` panics with `variance_test.DogImpl is not an interface`, which does
not contain the name of `Animal` either. -/
theorem Variant_message_counterexample :
    (Variant CatImpl Animal { data := 0, len := 1, cap := 2 }
      = Except.error "variance_test.CatImpl is not an interface" ∧
     containsStr "variance_test.CatImpl is not an interface" Animal.str = false) ∧
    (Variant Animal DogImpl { data := 0, len := 1, cap := 2 }
      = Except.error "variance_test.DogImpl is not an interface" ∧
     containsStr "variance_test.DogImpl is not an interface" Animal.str = false) := by
  decide

theorem mapM_error_of_exists {α β ε : Type} (f : α → Except ε β) (l : List α)
    (h : ∃ x ∈ l, ∃ e, f x = Except.error e) : ∃ e, l.mapM f = Except.error e := by
  induction l with
  | nil => simp at h
  | cons x l ih =>
    rw [List.mapM_cons]
    cases hx : f x with
    | error e => exact ⟨e, rfl⟩
    | ok u =>
      obtain ⟨y, hy, e, he⟩ := h
      rcases List.mem_cons.mp hy with rfl | hy
      · rw [hx] at he; cases he
      · obtain ⟨e1, he1⟩ := ih ⟨y, hy, e, he⟩
        exact ⟨e1, by rw [he1]; rfl⟩

/-- Where the slots line up the call enters the method that was called: when the methods of
`T2` are the leading methods of `T1`, a call of a method of `T2` on a value stored as a `T1`
enters that method. -/
theorem invoke_leading_slots (T1 T2 : RType) (rest : List Method)
    (hm : T1.methods = T2.methods ++ rest) (b : Boxed) (hb : b.tab = T1)
    (mt : Method) (hmt : mt ∈ T2.methods) :
    invoke T2 (some b) mt = Except.ok mt := by
  have hlt : T2.methods.indexOf mt < T2.methods.length := List.indexOf_lt_length.mpr hmt
  have hget : b.tab.methods[T2.methods.indexOf mt]? = some mt := by
    rw [hb, hm, List.getElem?_append_left hlt, List.getElem?_eq_getElem hlt,
      List.getElem_indexOf hlt]
  simp only [invoke, slotOf, hlt, if_true, hget]

/-- The loop of `TestCovariant`: `Animal` is the first method of `Cat`, and `Animal()` on the
`CatImpl{}` read through the `[]Animal` enters `Animal`. -/
theorem TestCovariant_loop :
    Variant Cat Animal { data := 0, len := 1, cap := 2 }
      = Except.ok { data := 0, len := 1, cap := 2 } ∧
    rangeInvoke covariantHeap ({ data := 0, len := 1, cap := 2 } : Slice Animal) mAnimal
      = Except.ok [mAnimal] := by
  decide

/-- C8, evaluated where the code breaks it: `Runner2` is an interface type assignable to
`Animal`, the element of `[]Runner2{RunnerImpl{}}` implements `Runner2`, `Variant[Runner2,
Animal]` returns and the element of the result implements `Animal`; but the call `Animal()`
on it reads slot 0 of the method table of `Runner2`, which the cast has left in place, and
enters `Aaa`, a method of another signature, without the argument it takes. -/
theorem Variant_covariant_wrong_slot :
    Runner2.kind = Kind.Interface ∧ Animal.kind = Kind.Interface ∧
    AssignableTo Runner2 Animal = true ∧
    implementsVal (runnerHeap 0) Runner2 = true ∧
    Variant Runner2 Animal { data := 0, len := 1, cap := 1 }
      = Except.ok { data := 0, len := 1, cap := 1 } ∧
    index runnerHeap ({ data := 0, len := 1, cap := 1 } : Slice Animal) 0
      = Except.ok (runnerHeap 0) ∧
    implementsVal (runnerHeap 0) Animal = true ∧
    invoke Animal (runnerHeap 0) mAnimal = Except.ok mAaa ∧
    rangeInvoke runnerHeap ({ data := 0, len := 1, cap := 1 } : Slice Animal) mAnimal
      = Except.ok [mAaa] ∧
    mAaa ≠ mAnimal ∧ mAaa.typ ≠ mAnimal.typ := by
  decide

theorem invoke_Cat_stored_as_Animal (b : Boxed) (hb : b.tab = Animal) :
    invoke Cat (some b) mCat = Except.error Failure.fault := by
  have hs : slotOf Cat mCat = some 1 := by decide
  have hg : b.tab.methods[1]? = none := by rw [hb]; rfl
  simp only [invoke, hs, hg]

/-- C9, as the code has it: for a `[]Animal` whose element `i` does not implement `Cat` and is
nil or was stored as an `Animal`, so that it carries the one-slot method table of `Animal`,
`Variant[Animal, Cat]` returns; element `i` of the result is that same value; calling a
method that `Cat` has and `Animal` has not on it fails at the call, with the panic of a nil
dereference when it is nil and otherwise with a read beyond the end of its method table; and
the loop that calls `Cat()` on each element of the result fails. -/
theorem Variant_contravariant_hazard (a : Slice Animal) (m : Heap) (i : Nat)
    (hi : i < a.len)
    (hstored : m (a.data + i) = none ∨ ∃ b, m (a.data + i) = some b ∧ b.tab = Animal)
    (hnot : implementsVal (m (a.data + i)) Cat = false) :
    ∃ r, Variant Animal Cat a = Except.ok r ∧
      ∃ v, index m r i = Except.ok v ∧ v = m (a.data + i) ∧
        implementsVal v Cat = false ∧
        (∀ mt ∈ Cat.methods, mt ∉ Animal.methods →
          invoke Cat v mt =
            Except.error (if v.isSome then Failure.fault else Failure.nilPointer)) ∧
        ∃ f, rangeInvoke m r mCat = Except.error f := by
  have hfail : invoke Cat (m (a.data + i)) mCat =
      Except.error (if (m (a.data + i)).isSome then Failure.fault else Failure.nilPointer) := by
    rcases hstored with hn | ⟨b, hb, htab⟩
    · rw [hn]; rfl
    · rw [hb]; exact invoke_Cat_stored_as_Animal b htab
  refine ⟨{ data := a.data, len := a.len, cap := a.cap },
    Variant_ok_of Animal Cat a rfl rfl (Or.inr (by decide)), m (a.data + i),
    by simp [index, hi], rfl, hnot, ?_, ?_⟩
  · intro mt hmt hnm
    have : mt = mCat := by
      simp only [Cat, Animal, List.mem_cons, List.mem_singleton, List.not_mem_nil,
        or_false] at hmt hnm
      rcases hmt with h | h
      · exact absurd h hnm
      · exact h
    rw [this]
    exact hfail
  · unfold rangeInvoke
    apply mapM_error_of_exists
    exact ⟨i, by simpa using hi, _, hfail⟩

/-- Witness of C9 as amended: the cast of `TestContravariant`, a `[]Animal` holding one
`DogImpl{}` stored as an `Animal`. -/
theorem Variant_contravariant_hazard_witness :
    implementsVal (contravariantHeap 0) Cat = false ∧
    ∃ r, Variant Animal Cat { data := 0, len := 1, cap := 2 } = Except.ok r ∧
      ∃ v, index contravariantHeap r 0 = Except.ok v ∧
        v = contravariantHeap (({ data := 0, len := 1, cap := 2 } : Slice Animal).data + 0) ∧
        implementsVal v Cat = false ∧
        (∀ mt ∈ Cat.methods, mt ∉ Animal.methods →
          invoke Cat v mt =
            Except.error (if v.isSome then Failure.fault else Failure.nilPointer)) ∧
        ∃ f, rangeInvoke contravariantHeap r mCat = Except.error f :=
  ⟨by decide,
   Variant_contravariant_hazard { data := 0, len := 1, cap := 2 } contravariantHeap 0
     (by decide) (Or.inr ⟨{ tab := Animal, typ := DogImpl, data := 0 }, by decide, rfl⟩)
     (by decide)⟩

/-- Counterexample to C9 as stated: the `[]Animal` that `Variant[Dog, Animal]` returns for
`[]Dog{DogImpl{}}` holds a `DogImpl`, which implements `Animal` and not `Cat`.
`Variant[Animal, Cat]` returns for it, and the call `Cat()` on its element through the
`[]Cat` does not fail: it reads slot 1 of the method table of `Dog`, which the element still
carries, and enters `Dog`. -/
theorem Variant_contravariant_counterexample :
    Variant Dog Animal { data := 0, len := 1, cap := 1 }
      = Except.ok { data := 0, len := 1, cap := 1 } ∧
    index dogHeap ({ data := 0, len := 1, cap := 1 } : Slice Animal) 0
      = Except.ok (dogHeap 0) ∧
    implementsVal (dogHeap 0) Animal = true ∧
    implementsVal (dogHeap 0) Cat = false ∧
    Variant Animal Cat { data := 0, len := 1, cap := 1 }
      = Except.ok { data := 0, len := 1, cap := 1 } ∧
    index dogHeap ({ data := 0, len := 1, cap := 1 } : Slice Cat) 0
      = Except.ok (dogHeap 0) ∧
    mCat ∈ Cat.methods ∧ mCat ∉ Animal.methods ∧
    invoke Cat (dogHeap 0) mCat = Except.ok mDog ∧
    rangeInvoke dogHeap ({ data := 0, len := 1, cap := 1 } : Slice Cat) mCat
      = Except.ok [mDog] := by
  decide

end variance

/-! ## Shared pools: theorems -/

namespace sharedpool

theorem tag_inj (T U : GoType) : tag T = tag U ↔ T = U := by
  simp [tag]

theorem poolAny_inj (T : GoType) (a b : Nat) : poolAny T a = poolAny T b ↔ a = b := by
  simp [poolAny]

theorem mapIndex_absent (m : GoMap) (k : Any) (h : (mapIndex m k).2 = false) :
    mapIndex m k = (none, false) := by
  induction m with
  | nil => rfl
  | cons e m ih =>
    obtain ⟨k1, v1⟩ := e
    by_cases hk : k1 = k
    · simp [mapIndex, hk] at h
    · simp only [mapIndex, hk, if_false] at h ⊢
      exact ih h

theorem mapIndex_assign_same (m : GoMap) (k v : Any) :
    mapIndex (mapAssign m k v) k = (v, true) := by
  induction m with
  | nil => simp [mapAssign, mapIndex]
  | cons e m ih =>
    obtain ⟨k1, v1⟩ := e
    by_cases hk : k1 = k
    · simp [mapAssign, mapIndex, hk]
    · simp [mapAssign, mapIndex, hk, ih]

theorem mapIndex_assign_other (m : GoMap) (k k2 v : Any) (h : k2 ≠ k) :
    mapIndex (mapAssign m k v) k2 = mapIndex m k2 := by
  induction m with
  | nil => simp [mapAssign, mapIndex, Ne.symm h]
  | cons e m ih =>
    obtain ⟨k1, v1⟩ := e
    by_cases hk : k1 = k
    · subst hk
      simp [mapAssign, mapIndex, Ne.symm h]
    · by_cases hk2 : k1 = k2
      · subst hk2
        simp [mapAssign, mapIndex, hk]
      · simp [mapAssign, mapIndex, hk, hk2, ih]

theorem mapAssign_absent (m : GoMap) (k v : Any) (h : (mapIndex m k).2 = false) :
    mapAssign m k v = m ++ [(k, v)] := by
  induction m with
  | nil => rfl
  | cons e m ih =>
    obtain ⟨k1, v1⟩ := e
    by_cases hk : k1 = k
    · simp [mapIndex, hk] at h
    · simp only [mapIndex, hk, if_false] at h
      simp [mapAssign, hk, ih h]

theorem assertPool_poolAny (T : GoType) (a : Nat) :
    assertPool T (poolAny T a) = Except.ok { addr := a } := by
  simp [assertPool, poolAny]

theorem SharedAlloc_present (T : GoType) (w : World) (a : Nat)
    (h : mapIndex w.poolMap (tag T) = (poolAny T a, true)) :
    SharedAlloc T w = (Except.ok (make0 T), printPool ({ addr := a } : PoolPtr T) w) := by
  simp [SharedAlloc, lookupOrCreate, h, assertPool_poolAny, PoolPtr.Alloc]

theorem SharedAlloc_absent (T : GoType) (w : World)
    (h : (mapIndex w.poolMap (tag T)).2 = false) :
    SharedAlloc T w =
      (Except.ok (make0 T),
       printPool ({ addr := w.heap.length } : PoolPtr T)
         { poolMap := mapAssign w.poolMap (tag T) (poolAny T w.heap.length),
           heap := w.heap ++ [GoType.Pool T],
           stdout := w.stdout }) := by
  have h0 := mapIndex_absent _ _ h
  simp [SharedAlloc, lookupOrCreate, h0, newPool, assertPool, PoolPtr.Alloc, poolAny]

theorem SharedAlloc_poolMap (T : GoType) (w : World) :
    (SharedAlloc T w).2.poolMap =
      if (mapIndex w.poolMap (tag T)).2 = true then w.poolMap
      else w.poolMap ++ [(tag T, poolAny T w.heap.length)] := by
  by_cases h : (mapIndex w.poolMap (tag T)).2 = true
  · rw [if_pos h]
    unfold SharedAlloc lookupOrCreate
    have hm : mapIndex w.poolMap (tag T) = ((mapIndex w.poolMap (tag T)).1, true) := by
      rw [← h]
    rw [hm]
    simp only [Bool.not_true, Bool.false_eq_true, if_false]
    cases assertPool T (mapIndex w.poolMap (tag T)).1 <;> rfl
  · rw [if_neg h]
    have h0 : (mapIndex w.poolMap (tag T)).2 = false := by simpa using h
    rw [SharedAlloc_absent T w h0, mapAssign_absent _ _ _ h0]
    rfl

/-- C7: a call `SharedAlloc[T]()` in any state, whether it returns or panics, leaves
`poolMap` exactly as it is when `tag[T]{}` is a key of it, and otherwise adds the one entry
from `tag[T]{}` to the new pool; the lookup of every other key gives what it gave before,
and every entry of the map before the call is an entry after it, with the same handle. -/
theorem SharedAlloc_frame (T : GoType) (w : World) :
    ((mapIndex w.poolMap (tag T)).2 = true → (SharedAlloc T w).2.poolMap = w.poolMap) ∧
    ((mapIndex w.poolMap (tag T)).2 = false →
      (SharedAlloc T w).2.poolMap = w.poolMap ++ [(tag T, poolAny T w.heap.length)]) ∧
    (∀ k, k ≠ tag T → mapIndex (SharedAlloc T w).2.poolMap k = mapIndex w.poolMap k) ∧
    (∀ k v, mapIndex w.poolMap k = (v, true) →
      mapIndex (SharedAlloc T w).2.poolMap k = (v, true)) ∧
    (∀ e, e ∈ w.poolMap → e ∈ (SharedAlloc T w).2.poolMap) := by
  have hp := SharedAlloc_poolMap T w
  refine ⟨?_, ?_, ?_, ?_, ?_⟩
  · intro h; rw [hp, if_pos h]
  · intro h; rw [hp, if_neg (by simp [h])]
  · intro k hk
    by_cases h : (mapIndex w.poolMap (tag T)).2 = true
    · rw [hp, if_pos h]
    · have h0 : (mapIndex w.poolMap (tag T)).2 = false := by simpa using h
      rw [hp, if_neg h, ← mapAssign_absent _ _ _ h0]
      exact mapIndex_assign_other _ _ _ _ hk
  · intro k v hkv
    by_cases h : (mapIndex w.poolMap (tag T)).2 = true
    · rw [hp, if_pos h]; exact hkv
    · have h0 : (mapIndex w.poolMap (tag T)).2 = false := by simpa using h
      have hk : k ≠ tag T := by
        intro hk
        rw [hk] at hkv
        rw [hkv] at h0
        cases h0
      rw [hp, if_neg h, ← mapAssign_absent _ _ _ h0, mapIndex_assign_other _ _ _ _ hk]
      exact hkv
  · intro e he
    by_cases h : (mapIndex w.poolMap (tag T)).2 = true
    · rw [hp, if_pos h]; exact he
    · rw [hp, if_neg h]
      exact List.mem_append_left _ he

theorem Inv_init : Inv World.init := by
  constructor
  · intro T v h
    simp [World.init, mapIndex] at h
  · intro a X h
    simp [World.init] at h

theorem Inv_printPool {T : GoType} (p : PoolPtr T) (w : World) (h : Inv w) :
    Inv (printPool p w) := h

theorem Inv_registered (w : World) (h : Inv w) (T : GoType)
    (hT : (mapIndex w.poolMap (tag T)).2 = true) :
    ∃ a, mapIndex w.poolMap (tag T) = (poolAny T a, true) ∧
      w.heap[a]? = some (GoType.Pool T) := by
  have hm : mapIndex w.poolMap (tag T) = ((mapIndex w.poolMap (tag T)).1, true) := by
    rw [← hT]
  obtain ⟨a, ha, hh⟩ := h.1 T _ hm
  exact ⟨a, by rw [hm, ha], hh⟩

theorem Inv_alloc (w : World) (h : Inv w) (T : GoType)
    (hT : (mapIndex w.poolMap (tag T)).2 = false) :
    Inv { poolMap := mapAssign w.poolMap (tag T) (poolAny T w.heap.length),
          heap := w.heap ++ [GoType.Pool T],
          stdout := w.stdout } := by
  constructor
  · intro U v hv
    simp only at hv ⊢
    by_cases hU : U = T
    · subst hU
      rw [mapIndex_assign_same] at hv
      refine ⟨w.heap.length, ?_, ?_⟩
      · exact (Prod.mk.inj hv).1.symm
      · simp
    · have hne : tag U ≠ tag T := fun e => hU ((tag_inj U T).mp e)
      rw [mapIndex_assign_other _ _ _ _ hne] at hv
      obtain ⟨a, ha, hh⟩ := h.1 U v hv
      refine ⟨a, ha, ?_⟩
      have hlt : a < w.heap.length := by
        rcases Nat.lt_or_ge a w.heap.length with hlt | hge
        · exact hlt
        · rw [List.getElem?_eq_none hge] at hh; cases hh
      rw [List.getElem?_append_left hlt]
      exact hh
  · intro a X hX
    simp only at hX ⊢
    rcases Nat.lt_or_ge a w.heap.length with hlt | hge
    · rw [List.getElem?_append_left hlt] at hX
      obtain ⟨U, hU, hreg⟩ := h.2 a X hX
      refine ⟨U, hU, ?_⟩
      have hne : tag U ≠ tag T := by
        intro e
        rw [e, mapIndex_absent _ _ hT] at hreg
        cases hreg
      rw [mapIndex_assign_other _ _ _ _ hne]
      exact hreg
    · rw [List.getElem?_append_right hge] at hX
      have ha : a = w.heap.length := by
        rcases Nat.eq_or_lt_of_le hge with e | hlt
        · exact e.symm
        · have : 1 ≤ a - w.heap.length := by omega
          rw [List.getElem?_eq_none (by simpa using this)] at hX
          cases hX
      subst ha
      simp only [Nat.sub_self, List.getElem?_cons_zero, Option.some.injEq] at hX
      exact ⟨T, hX.symm, mapIndex_assign_same _ _ _⟩

/-- What a call `SharedAlloc[T]()` does in a state satisfying the invariant. -/
theorem SharedAlloc_spec (T : GoType) (w : World) (hinv : Inv w) :
    ∃ a w1, SharedAlloc T w = (Except.ok (make0 T), w1) ∧ Inv w1 ∧
      mapIndex w1.poolMap (tag T) = (poolAny T a, true) ∧
      w1.stdout = w.stdout ++ [(GoType.pointer (GoType.Pool T), a)] ∧
      (∀ k v, mapIndex w.poolMap k = (v, true) → mapIndex w1.poolMap k = (v, true)) ∧
      (∀ U, (mapIndex w1.poolMap (tag U)).2 = true →
        (mapIndex w.poolMap (tag U)).2 = true ∨ U = T) := by
  by_cases hT : (mapIndex w.poolMap (tag T)).2 = true
  · obtain ⟨a, ha, -⟩ := Inv_registered w hinv T hT
    refine ⟨a, _, SharedAlloc_present T w a ha, Inv_printPool _ w hinv, ha, rfl, ?_, ?_⟩
    · intro k v h; exact h
    · intro U h; exact Or.inl h
  · have h0 : (mapIndex w.poolMap (tag T)).2 = false := by simpa using hT
    refine ⟨w.heap.length, _, SharedAlloc_absent T w h0,
      Inv_printPool _ _ (Inv_alloc w hinv T h0), ?_, rfl, ?_, ?_⟩
    · exact mapIndex_assign_same _ _ _
    · intro k v hkv
      have hk : k ≠ tag T := by
        intro hk
        rw [hk] at hkv
        rw [hkv] at h0
        cases h0
      show mapIndex (mapAssign w.poolMap (tag T) _) k = (v, true)
      rw [mapIndex_assign_other _ _ _ _ hk]
      exact hkv
    · intro U hU
      by_cases hUT : U = T
      · exact Or.inr hUT
      · left
        have hne : tag U ≠ tag T := fun e => hUT ((tag_inj U T).mp e)
        have : mapIndex (mapAssign w.poolMap (tag T) (poolAny T w.heap.length)) (tag U)
            = mapIndex w.poolMap (tag U) := mapIndex_assign_other _ _ _ _ hne
        rw [← this]
        exact hU

theorem poolOf_registered (w : World) (T : GoType) (a : Nat)
    (h : mapIndex w.poolMap (tag T) = (poolAny T a, true)) : poolOf w T = some a := by
  simp [poolOf, h, poolAny]

/-- What a sequence of calls does in a state satisfying the invariant: every call returns,
registered pools stay registered, only types of the sequence get a pool, and the line printed
by each call shows the pool registered for its type at the end. -/
theorem runCalls_spec (calls : List GoType) : ∀ w : World, Inv w →
    ∃ w1, runCalls calls w = (Except.ok (), w1) ∧ Inv w1 ∧
      (∀ k v, mapIndex w.poolMap k = (v, true) → mapIndex w1.poolMap k = (v, true)) ∧
      (∀ U, (mapIndex w1.poolMap (tag U)).2 = true →
        (mapIndex w.poolMap (tag U)).2 = true ∨ U ∈ calls) ∧
      (∀ T ∈ calls, ∃ a, mapIndex w1.poolMap (tag T) = (poolAny T a, true)) ∧
      w1.stdout = w.stdout ++
        calls.map (fun T => (GoType.pointer (GoType.Pool T), (poolOf w1 T).getD 0)) := by
  induction calls with
  | nil =>
    intro w hinv
    exact ⟨w, rfl, hinv, fun _ _ h => h, fun _ h => Or.inl h, by simp, by simp⟩
  | cons T rest ih =>
    intro w hinv
    obtain ⟨a, w1, hcall, hinv1, hreg, hout, hkeep, hnew⟩ := SharedAlloc_spec T w hinv
    obtain ⟨w2, hrun, hinv2, hkeep2, hnew2, hall2, hout2⟩ := ih w1 hinv1
    refine ⟨w2, ?_, hinv2, ?_, ?_, ?_, ?_⟩
    · simp only [runCalls, hcall]
      exact hrun
    · intro k v h
      exact hkeep2 k v (hkeep k v h)
    · intro U hU
      rcases hnew2 U hU with h | h
      · rcases hnew U h with h | h
        · exact Or.inl h
        · exact Or.inr (by simp [h])
      · exact Or.inr (List.mem_cons_of_mem _ h)
    · intro U hU
      rcases List.mem_cons.mp hU with h | h
      · subst h
        exact ⟨a, hkeep2 _ _ hreg⟩
      · exact hall2 U h
    · rw [hout2, hout, List.map_cons, poolOf_registered w2 T a (hkeep2 _ _ hreg)]
      simp

theorem Inv_heap_nodup (w : World) (h : Inv w) : w.heap.Nodup := by
  rw [List.nodup_iff_getElem?_ne_getElem?]
  intro i j hij hj heq
  have hi : i < w.heap.length := Nat.lt_trans hij hj
  have hgi : w.heap[i]? = some (w.heap[i]) := List.getElem?_eq_getElem hi
  obtain ⟨U, hU, hreg⟩ := h.2 i _ hgi
  have hgj : w.heap[j]? = some (w.heap[i]) := by rw [← heq, hgi]
  obtain ⟨V, hV, hreg2⟩ := h.2 j _ hgj
  have hUV : U = V := by
    rw [hU] at hV
    exact GoType.Pool.inj hV
  subst hUV
  rw [hreg] at hreg2
  have := (poolAny_inj U i j).mp (Prod.mk.inj hreg2).1
  omega

theorem Inv_count (w : World) (h : Inv w) (T : GoType) :
    w.heap.count (GoType.Pool T) =
      if (mapIndex w.poolMap (tag T)).2 = true then 1 else 0 := by
  by_cases hT : (mapIndex w.poolMap (tag T)).2 = true
  · rw [if_pos hT]
    obtain ⟨a, -, ha⟩ := Inv_registered w h T hT
    have hmem : GoType.Pool T ∈ w.heap := List.mem_iff_getElem?.mpr ⟨a, ha⟩
    exact List.count_eq_one_of_mem (Inv_heap_nodup w h) hmem
  · rw [if_neg hT]
    apply List.count_eq_zero_of_not_mem
    intro hmem
    obtain ⟨a, ha⟩ := List.mem_iff_getElem?.mp hmem
    obtain ⟨U, hU, hreg⟩ := h.2 a _ ha
    have : U = T := (GoType.Pool.inj hU).symm
    subst this
    rw [hreg] at hT
    exact hT rfl

theorem Reachable_Inv (w : World) (h : Reachable w) : Inv w := by
  induction h with
  | init => exact Inv_init
  | call T w w1 s _ hcall ih =>
    obtain ⟨a, w2, hcall2, hinv2, -⟩ := SharedAlloc_spec T w ih
    rw [hcall2] at hcall
    have : w2 = w1 := (Prod.mk.inj hcall).2
    rw [← this]
    exact hinv2

theorem runCalls_append (c1 c2 : List GoType) :
    ∀ (w w1 : World), runCalls c1 w = (Except.ok (), w1) →
      runCalls (c1 ++ c2) w = runCalls c2 w1 := by
  induction c1 with
  | nil =>
    intro w w1 h
    simp only [runCalls, Prod.mk.injEq, true_and] at h
    rw [h]; rfl
  | cons T c1 ih =>
    intro w w1 h
    simp only [List.cons_append, runCalls] at h ⊢
    rcases hc : SharedAlloc T w with ⟨r, w2⟩
    rw [hc] at h
    cases r with
    | error e => simp at h
    | ok s =>
      simp only at h ⊢
      exact ih w2 w1 h

theorem runCalls_reachable (calls : List GoType) :
    ∀ w : World, Reachable w → (runCalls calls w).1 = Except.ok () →
      Reachable (runCalls calls w).2 := by
  induction calls with
  | nil => intro w hw _; exact hw
  | cons T rest ih =>
    intro w hw h
    simp only [runCalls] at h ⊢
    rcases hc : SharedAlloc T w with ⟨r, w2⟩
    rw [hc] at h
    cases r with
    | error e => simp at h
    | ok s =>
      simp only at h ⊢
      exact ih w2 (Reachable.call T w w2 s hw hc) h

/-- A sequence of calls from program start: it returns, call `i` prints the pool that is
registered for its type at the end, and that pool is an allocated `Pool[T]`. -/
theorem runCalls_init_spec (calls : List GoType) :
    ∃ w, runCalls calls World.init = (Except.ok (), w) ∧ Inv w ∧
      w.stdout.length = calls.length ∧
      (∀ T, (mapIndex w.poolMap (tag T)).2 = true ↔ T ∈ calls) ∧
      (∀ (i : Nat) (T : GoType), calls[i]? = some T →
        ∃ a : Nat, w.stdout[i]? = some (GoType.pointer (GoType.Pool T), a) ∧
          mapIndex w.poolMap (tag T) = (poolAny T a, true) ∧
          w.heap[a]? = some (GoType.Pool T)) := by
  obtain ⟨w, hrun, hinv, -, hnew, hall, hout⟩ := runCalls_spec calls World.init Inv_init
  have hout1 : w.stdout =
      calls.map (fun T => (GoType.pointer (GoType.Pool T), (poolOf w T).getD 0)) := by
    rw [hout]; rfl
  refine ⟨w, hrun, hinv, ?_, ?_, ?_⟩
  · rw [hout1, List.length_map]
  · intro T
    constructor
    · intro h
      rcases hnew T h with h0 | h0
      · simp [World.init, mapIndex] at h0
      · exact h0
    · intro h
      obtain ⟨a, ha⟩ := hall T h
      rw [ha]
  · intro i T hi
    obtain ⟨a, ha⟩ := hall T (List.mem_iff_getElem?.mpr ⟨i, hi⟩)
    obtain ⟨b, hb, hheap⟩ := Inv_registered w hinv T (by rw [ha])
    have hab : a = b := by
      rw [ha] at hb
      exact (poolAny_inj T a b).mp (Prod.mk.inj hb).1
    subst hab
    refine ⟨a, ?_, ha, hheap⟩
    rw [hout1, List.getElem?_map, hi, Option.map_some', poolOf_registered w T a ha]
    rfl

/-- C3: in every sequence of `SharedAlloc` calls from the empty `poolMap`, every call
returns; a call for `T` uses the pool stored under `tag[T]{}`, which is an allocated
`Pool[T]`; two calls for the same `T` use the same pool; that pool is the one the first call
for `T` allocates, at an address where no object was before, no `Pool[T]` existing until
then; and exactly one `Pool[T]` has been allocated for each `T` of the sequence, none for any
other type. -/
theorem SharedAlloc_singleton (calls : List GoType) :
    ∃ w, runCalls calls World.init = (Except.ok (), w) ∧
      w.stdout.length = calls.length ∧
      (∀ (i : Nat) (T : GoType), calls[i]? = some T →
        ∃ a : Nat, w.stdout[i]? = some (GoType.pointer (GoType.Pool T), a) ∧
          mapIndex w.poolMap (tag T) = (poolAny T a, true) ∧
          w.heap[a]? = some (GoType.Pool T)) ∧
      (∀ (i j : Nat) (T : GoType), calls[i]? = some T → calls[j]? = some T →
        ∃ p, w.stdout[i]? = some p ∧ w.stdout[j]? = some p) ∧
      (∀ (pre post : List GoType) (T : GoType), calls = pre ++ T :: post → T ∉ pre →
        ∃ w0, runCalls pre World.init = (Except.ok (), w0) ∧
          w0.heap.count (GoType.Pool T) = 0 ∧
          mapIndex w.poolMap (tag T) = (poolAny T w0.heap.length, true)) ∧
      (∀ T, w.heap.count (GoType.Pool T) = if T ∈ calls then 1 else 0) := by
  obtain ⟨w, hrun, hinv, hlen, hreg, hline⟩ := runCalls_init_spec calls
  refine ⟨w, hrun, hlen, hline, ?_, ?_, ?_⟩
  · intro i j T hi hj
    obtain ⟨a, ha, hra, -⟩ := hline i T hi
    obtain ⟨b, hb, hrb, -⟩ := hline j T hj
    have hab : a = b := by
      rw [hra] at hrb
      exact (poolAny_inj T a b).mp (Prod.mk.inj hrb).1
    subst hab
    exact ⟨_, ha, hb⟩
  · intro pre post T hcalls hpre
    obtain ⟨w0, hrun0, hinv0, -, hreg0, -⟩ := runCalls_init_spec pre
    have habs : (mapIndex w0.poolMap (tag T)).2 = false := by
      cases hb : (mapIndex w0.poolMap (tag T)).2 with
      | false => rfl
      | true => exact absurd ((hreg0 T).mp hb) hpre
    have hcount : w0.heap.count (GoType.Pool T) = 0 := by
      rw [Inv_count w0 hinv0 T, habs]; rfl
    refine ⟨w0, hrun0, hcount, ?_⟩
    have hcall := SharedAlloc_absent T w0 habs
    obtain ⟨w2, hrun2, -, hkeep2, -⟩ := runCalls_spec post _
      (Inv_printPool ({ addr := w0.heap.length } : PoolPtr T) _ (Inv_alloc w0 hinv0 T habs))
    have hfull : runCalls calls World.init = (Except.ok (), w2) := by
      rw [hcalls, runCalls_append pre (T :: post) World.init w0 hrun0]
      simp only [runCalls, hcall]
      exact hrun2
    rw [hrun] at hfull
    have hw : w = w2 := (Prod.mk.inj hfull).2
    rw [hw]
    exact hkeep2 _ _ (mapIndex_assign_same _ _ _)
  · intro T
    rw [Inv_count w hinv T]
    by_cases h : T ∈ calls
    · rw [if_pos h, if_pos ((hreg T).mpr h)]
    · rw [if_neg h, if_neg (fun h1 => h ((hreg T).mp h1))]

/-- C4: the keys `tag[T]{}` and `tag[U]{}` are equal exactly when `T` and `U` are the same
type; in every sequence of calls from the empty `poolMap`, a call for `T` and a call for a
different type `U` use pools at different addresses; and in every reachable state the pools
registered for two different types are at different addresses. -/
theorem pools_distinct :
    (∀ T U : GoType, tag T = tag U ↔ T = U) ∧
    (∀ calls : List GoType, ∃ w, runCalls calls World.init = (Except.ok (), w) ∧
      ∀ (i j : Nat) (T U : GoType), calls[i]? = some T → calls[j]? = some U → T ≠ U →
        ∃ a b : Nat, w.stdout[i]? = some (GoType.pointer (GoType.Pool T), a) ∧
          w.stdout[j]? = some (GoType.pointer (GoType.Pool U), b) ∧ a ≠ b) ∧
    (∀ w, Reachable w → ∀ T U a b, T ≠ U →
      mapIndex w.poolMap (tag T) = (poolAny T a, true) →
      mapIndex w.poolMap (tag U) = (poolAny U b, true) → a ≠ b) := by
  refine ⟨tag_inj, ?_, ?_⟩
  · intro calls
    obtain ⟨w, hrun, -, -, -, hline⟩ := runCalls_init_spec calls
    refine ⟨w, hrun, ?_⟩
    intro i j T U hi hj hTU
    obtain ⟨a, ha, -, hha⟩ := hline i T hi
    obtain ⟨b, hb, -, hhb⟩ := hline j U hj
    refine ⟨a, b, ha, hb, ?_⟩
    intro hab
    subst hab
    rw [hha] at hhb
    exact hTU (GoType.Pool.inj (Option.some.inj hhb))
  · intro w hw T U a b hTU hT hU hab
    subst hab
    have hinv := Reachable_Inv w hw
    obtain ⟨a1, h1, hh1⟩ := Inv_registered w hinv T (by rw [hT])
    obtain ⟨a2, h2, hh2⟩ := Inv_registered w hinv U (by rw [hU])
    rw [hT] at h1
    rw [hU] at h2
    have e1 := (poolAny_inj T a a1).mp (Prod.mk.inj h1).1
    have e2 := (poolAny_inj U a a2).mp (Prod.mk.inj h2).1
    subst e1
    rw [← e2, hh1] at hh2
    exact hTU (GoType.Pool.inj (Option.some.inj hh2))

/-- C5: in every state reachable from the empty `poolMap` by `SharedAlloc` calls, what is
stored under `tag[T]{}` is a `*Pool[T]`, on which the type assertion succeeds, and
`SharedAlloc[T]()` returns a slice of length 0, in a state that is reachable again. -/
theorem SharedAlloc_total (T : GoType) (w : World) (h : Reachable w) :
    (∀ v, mapIndex w.poolMap (tag T) = (v, true) →
      ∃ a, v = poolAny T a ∧ assertPool T v = Except.ok { addr := a }) ∧
    ∃ s w1, SharedAlloc T w = (Except.ok s, w1) ∧ s.len = 0 ∧ Reachable w1 := by
  have hinv := Reachable_Inv w h
  constructor
  · intro v hv
    obtain ⟨a, ha, -⟩ := hinv.1 T v hv
    exact ⟨a, ha, by rw [ha]; exact assertPool_poolAny T a⟩
  · obtain ⟨a, w1, hcall, -⟩ := SharedAlloc_spec T w hinv
    exact ⟨make0 T, w1, hcall, rfl, Reachable.call T w w1 (make0 T) h hcall⟩

/-- Witness of C5: a further call `SharedAlloc[int]()` in the state at the end of `main`. -/
theorem SharedAlloc_total_witness :
    Reachable main.2 ∧
    ((∀ v, mapIndex main.2.poolMap (tag GoType.int) = (v, true) →
      ∃ a, v = poolAny GoType.int a ∧ assertPool GoType.int v = Except.ok { addr := a }) ∧
    ∃ s w1, SharedAlloc GoType.int main.2 = (Except.ok s, w1) ∧ s.len = 0 ∧ Reachable w1) :=
  have hr : Reachable main.2 :=
    runCalls_reachable mainCalls World.init Reachable.init (by decide)
  ⟨hr, SharedAlloc_total GoType.int main.2 hr⟩

/-- An activation that runs its statements without another caller in between does what the
function `SharedAlloc` does. -/
theorem Call_run_refines (T : GoType) (w : World) :
    Call.run 6 (Call.L31 : Call T) w =
      (match (SharedAlloc T w).1 with
        | Except.ok s => Call.returned s
        | Except.error e => Call.panicked e,
       (SharedAlloc T w).2) := by
  by_cases h : (mapIndex w.poolMap (tag T)).2 = true
  · have hm : mapIndex w.poolMap (tag T) = ((mapIndex w.poolMap (tag T)).1, true) := by
      rw [← h]
    generalize (mapIndex w.poolMap (tag T)).1 = v at hm
    simp only [Call.run, Call.step, SharedAlloc, lookupOrCreate, hm, Bool.not_true,
      Bool.false_eq_true, if_false]
    cases assertPool T v <;> rfl
  · have h0 : (mapIndex w.poolMap (tag T)).2 = false := by simpa using h
    rw [SharedAlloc_absent T w h0]
    have hm := mapIndex_absent _ _ h0
    simp [Call.run, Call.step, hm, newPool, assertPool, printPool, PoolPtr.Alloc, poolAny]

theorem stepAt_mid {T : GoType} (pre post : List (Call T)) (c : Call T) (w : World) :
    stepAt pre.length (pre ++ c :: post) w = (pre ++ (c.step w).1 :: post, (c.step w).2) := by
  have hget : (pre ++ c :: post)[pre.length]? = some c := by
    rw [List.getElem?_append_right (Nat.le_refl _)]; simp
  have hset : ∀ x, (pre ++ c :: post).set pre.length x = pre ++ x :: post := by
    intro x; simp
  simp only [stepAt, hget, hset]

theorem runSchedule_append {T : GoType} (s1 s2 : List Nat) :
    ∀ (cs : List (Call T)) (w : World),
      runSchedule (s1 ++ s2) cs w
        = runSchedule s2 (runSchedule s1 cs w).1 (runSchedule s1 cs w).2 := by
  induction s1 with
  | nil => intro cs w; rfl
  | cons i s1 ih =>
    intro cs w
    simp only [List.cons_append, runSchedule]
    exact ih _ _

theorem runSchedule_replicate {T : GoType} (pre post : List (Call T)) (n : Nat) :
    ∀ (c : Call T) (w : World),
      runSchedule (List.replicate n pre.length) (pre ++ c :: post) w
        = (pre ++ (Call.run n c w).1 :: post, (Call.run n c w).2) := by
  induction n with
  | zero => intro c w; rfl
  | succ n ih =>
    intro c w
    simp only [List.replicate_succ, runSchedule, stepAt_mid, Call.run]
    exact ih _ _

/-- Serial callers in a state where the pool of `T` is registered: each one prints that pool
and returns, and nothing else changes. -/
theorem runSchedule_serial_registered (T : GoType) (a : Nat) (n : Nat) :
    ∀ (pre : List (Call T)) (w : World),
      mapIndex w.poolMap (tag T) = (poolAny T a, true) →
      runSchedule (serialFrom pre.length n) (pre ++ List.replicate n Call.L31) w
        = (pre ++ List.replicate n (Call.returned (make0 T)),
           { w with stdout := w.stdout ++
               List.replicate n (GoType.pointer (GoType.Pool T), a) }) := by
  induction n with
  | zero =>
    intro pre w _
    simp [serialFrom, runSchedule]
  | succ n ih =>
    intro pre w hreg
    have hcall := SharedAlloc_present T w a hreg
    have hrun := Call_run_refines T w
    rw [hcall] at hrun
    simp only at hrun
    have hl : List.replicate (n + 1) (Call.L31 : Call T)
        = Call.L31 :: List.replicate n Call.L31 := rfl
    rw [serialFrom, runSchedule_append, hl,
      runSchedule_replicate pre (List.replicate n Call.L31) 6 Call.L31 w, hrun]
    simp only
    have hpre : pre ++ Call.returned (make0 T) :: List.replicate n (Call.L31 : Call T)
        = (pre ++ [Call.returned (make0 T)]) ++ List.replicate n Call.L31 := by simp
    have hlen : pre.length + 1 = (pre ++ [Call.returned (make0 T)]).length := by simp
    rw [hpre, hlen, ih (pre ++ [Call.returned (make0 T)])
      (printPool ({ addr := a } : PoolPtr T) w) hreg]
    simp [printPool, List.replicate_succ]

/-- C10, as the code has it: when `N` callers of `SharedAlloc[T]`, in a state where `T` has no
pool yet, run one after the other, each to its end before the next starts, all of them
return, exactly one `Pool[T]` is allocated and registered under `tag[T]{}`, and each of the
`N` callers prints that one pool. -/
theorem SharedAlloc_serial_callers (T : GoType) (N : Nat) (w : World) (hN : 0 < N)
    (hfirst : (mapIndex w.poolMap (tag T)).2 = false) :
    runSchedule (serialFrom 0 N) (List.replicate N (Call.L31 : Call T)) w
      = (List.replicate N (Call.returned (make0 T)),
         { poolMap := w.poolMap ++ [(tag T, poolAny T w.heap.length)],
           heap := w.heap ++ [GoType.Pool T],
           stdout := w.stdout ++
             List.replicate N (GoType.pointer (GoType.Pool T), w.heap.length) }) := by
  obtain ⟨n, rfl⟩ : ∃ n, N = n + 1 := ⟨N - 1, by omega⟩
  have hcall := SharedAlloc_absent T w hfirst
  have hrun := Call_run_refines T w
  rw [hcall] at hrun
  simp only at hrun
  have h1 := runSchedule_replicate ([] : List (Call T)) (List.replicate n Call.L31) 6
    Call.L31 w
  rw [hrun] at h1
  simp only [List.length_nil, List.nil_append] at h1
  have hl : List.replicate (n + 1) (Call.L31 : Call T)
      = Call.L31 :: List.replicate n Call.L31 := rfl
  rw [serialFrom, runSchedule_append, hl, h1]
  simp only
  have h2 := runSchedule_serial_registered T w.heap.length n [Call.returned (make0 T)]
    (printPool ({ addr := w.heap.length } : PoolPtr T)
      { poolMap := mapAssign w.poolMap (tag T) (poolAny T w.heap.length),
        heap := w.heap ++ [GoType.Pool T],
        stdout := w.stdout })
    (mapIndex_assign_same _ _ _)
  simp only [List.length_singleton, List.singleton_append] at h2
  rw [Nat.zero_add, h2, mapAssign_absent _ _ _ hfirst]
  simp [printPool, List.replicate_succ]

/-- Witness of C10 as amended: three callers of `SharedAlloc[int]` at program start. -/
theorem SharedAlloc_serial_callers_witness :
    runSchedule (serialFrom 0 3) (List.replicate 3 (Call.L31 : Call GoType.int)) World.init
      = (List.replicate 3 (Call.returned (make0 GoType.int)),
         { poolMap := World.init.poolMap ++
             [(tag GoType.int, poolAny GoType.int World.init.heap.length)],
           heap := World.init.heap ++ [GoType.Pool GoType.int],
           stdout := World.init.stdout ++
             List.replicate 3
               (GoType.pointer (GoType.Pool GoType.int), World.init.heap.length) }) :=
  SharedAlloc_serial_callers GoType.int 3 World.init (by decide) (by decide)

/-- Counterexample to C10 as stated: two callers of `SharedAlloc[int]` at program start, both
executing the lookup of line 31 before either executes the assignment of line 33.  Both
return; two `Pool[int]` have been allocated, at addresses 0 and 1; the first caller has used
the pool at 0 and the second the pool at 1, which has replaced the first one in `poolMap`. -/
theorem SharedAlloc_interleaved_counterexample :
    runSchedule racySchedule [(Call.L31 : Call GoType.int), Call.L31] World.init
      = ([Call.returned (make0 GoType.int), Call.returned (make0 GoType.int)],
         { poolMap := [(tag GoType.int, poolAny GoType.int 1)],
           heap := [GoType.Pool GoType.int, GoType.Pool GoType.int],
           stdout := [(GoType.pointer (GoType.Pool GoType.int), 0),
                      (GoType.pointer (GoType.Pool GoType.int), 1)] }) ∧
    (runSchedule racySchedule [(Call.L31 : Call GoType.int), Call.L31] World.init).2.heap.count
      (GoType.Pool GoType.int) = 2 := by
  decide

end sharedpool
